import Mathlib

/-!
Verification of the `sliding_window` crate: a heapless, fixed-capacity
circular buffer (`SlidingWindow<IT, N>`) that keeps the N most recent
samples of a stream.

The Rust source (src/lib.rs) is shallowly embedded as follows:

* `usize` is modelled as `Nat`; overflow is explicit.  `USIZE_MAX = 2^64 - 1`
  is the value `usize::MAX` has on the 64-bit targets the crate is built for.
* `GenericArray<MaybeUninit<IT>, N>` is modelled as a `List (Option α)` of
  length N: `none` is an uninitialized (`MaybeUninit::uninit`) slot, `some v`
  a slot initialized with `v`.
* `self.items[i]` followed by `assume_init`-style reads is modelled as
  `items.getD i none`: reading an uninitialized or out-of-range slot yields
  `none`, which stands for the failure (panic / undefined read) the Rust code
  would exhibit there.
* The `Index` operator, which either panics (the `assert!` in the not-full
  branch) or returns a reference, is modelled as `SlidingWindow.index`
  returning `Option α`: `none` is the failing read, `some v` a successful one.
* Iterators are embedded as their state structs plus a `next` step function;
  `collect` repeatedly applies `next` until it yields nothing, producing the
  full yielded sequence.
-/

/-- The value `usize::MAX` has on the 64-bit targets the crate is built for. -/
def USIZE_MAX : Nat := 2 ^ 64 - 1

/-- Embedding of `WrappingExt::wrapping_add_limited` for `usize`
(src/lib.rs:41-46): `checked_add` succeeds exactly when `a + r ≤ usize::MAX`;
on overflow the code computes `(r - (usize::MAX - a)) % max`. -/
def wrapping_add_limited (a r max : Nat) : Nat :=
  if a + r ≤ USIZE_MAX then (a + r) % max
  else (r - (USIZE_MAX - a)) % max

/-- Embedding of `WrappingExt::wrapping_add1_limited` for `usize`
(src/lib.rs:48-50). -/
def wrapping_add1_limited (a max : Nat) : Nat :=
  if a = max - 1 then 0 else a + 1

/-- Embedding of `SlidingWindow<IT, N>` (src/lib.rs:98-104). -/
structure SlidingWindow (α : Type) (N : Nat) where
  items : List (Option α)
  write_idx : Nat
  is_full : Bool
  deriving DecidableEq

/-- Embedding of `SlidingWindow::new` / `Default::default`
(src/lib.rs:110-116, 221-223): all slots uninitialized. -/
def SlidingWindow.new (α : Type) (N : Nat) : SlidingWindow α N :=
  ⟨List.replicate N none, 0, false⟩

/-- Embedding of `SlidingWindow::count` (src/lib.rs:264-270). -/
def SlidingWindow.count {α : Type} {N : Nat} (w : SlidingWindow α N) : Nat :=
  if w.is_full = true then N else w.write_idx

/-- Embedding of the `Index` operator (src/lib.rs:119-133).  In the not-full
branch the code asserts `idx < write_idx` and panics otherwise; `none` models
that panic.  In the full branch the slot
`write_idx.wrapping_add_limited(idx, N)` is read unconditionally. -/
def SlidingWindow.index {α : Type} {N : Nat} (w : SlidingWindow α N) (idx : Nat) : Option α :=
  if w.is_full = true then
    w.items.getD (wrapping_add_limited w.write_idx idx N) none
  else if idx < w.write_idx then
    w.items.getD idx none
  else
    none

/-- Embedding of `SlidingWindow::insert` (src/lib.rs:228-246).  Returns the
pair (returned `Option<IT>`, updated window).  In the full branch the value
previously resident at `write_idx` (obtained by `mem::replace` and
`assume_init`) is returned. -/
def SlidingWindow.insert {α : Type} {N : Nat} (w : SlidingWindow α N) (t : α) :
    Option α × SlidingWindow α N :=
  if w.is_full = false then
    if w.write_idx = N - 1 then
      (none, ⟨w.items.set w.write_idx (some t), 0, true⟩)
    else
      (none, ⟨w.items.set w.write_idx (some t), w.write_idx + 1, w.is_full⟩)
  else
    (w.items.getD w.write_idx none,
     ⟨w.items.set w.write_idx (some t), wrapping_add1_limited w.write_idx N, w.is_full⟩)

/-- Embedding of `SlidingWindow::clear` (src/lib.rs:249-256).  The Rust body
drops the first `count()` resident elements in place and then overwrites
`*self` with `Self::new()`; the drops have no observable effect in a value
model, so the result is exactly the fresh window. -/
def SlidingWindow.clear {α : Type} {N : Nat} (_w : SlidingWindow α N) : SlidingWindow α N :=
  SlidingWindow.new α N

/-- Embedding of the ordered-iterator state `Iter` (src/lib.rs:136-143). -/
structure Iter (α : Type) (N : Nat) where
  window : SlidingWindow α N
  start : Nat
  offset : Nat
  count : Nat

/-- Embedding of `SlidingWindow::iter` (src/lib.rs:275-282). -/
def SlidingWindow.iter {α : Type} {N : Nat} (w : SlidingWindow α N) : Iter α N :=
  ⟨w, if w.is_full = true then w.write_idx else 0, 0, w.count⟩

/-- Embedding of `Iterator::next` for `Iter` (src/lib.rs:150-159). -/
def Iter.next {α : Type} {N : Nat} (it : Iter α N) : Option α × Iter α N :=
  if it.offset < it.count then
    (it.window.items.getD (wrapping_add_limited it.start it.offset N) none,
     ⟨it.window, it.start, it.offset + 1, it.count⟩)
  else
    (none, it)

/-- Running the ordered iterator to exhaustion: the sequence of elements its
`next` yields until it returns `None`. -/
def Iter.collect {α : Type} {N : Nat} (it : Iter α N) : List (Option α) :=
  if _h : it.offset < it.count then
    (Iter.next it).1 :: Iter.collect (Iter.next it).2
  else
    []
termination_by it.count - it.offset
decreasing_by
  simp only [Iter.next, if_pos _h]
  omega

/-- Embedding of the unordered-iterator state `UnorderedIter`
(src/lib.rs:178-183). -/
structure UnorderedIter (α : Type) (N : Nat) where
  window : SlidingWindow α N
  offset : Nat

/-- Embedding of `SlidingWindow::iter_unordered` (src/lib.rs:288-293). -/
def SlidingWindow.iter_unordered {α : Type} {N : Nat} (w : SlidingWindow α N) :
    UnorderedIter α N :=
  ⟨w, w.count⟩

/-- Embedding of `Iterator::next` for `UnorderedIter` (src/lib.rs:190-198). -/
def UnorderedIter.next {α : Type} {N : Nat} (it : UnorderedIter α N) :
    Option α × UnorderedIter α N :=
  if 0 < it.offset then
    (it.window.items.getD (it.offset - 1) none, ⟨it.window, it.offset - 1⟩)
  else
    (none, it)

/-- Running the unordered iterator to exhaustion. -/
def UnorderedIter.collect {α : Type} {N : Nat} (it : UnorderedIter α N) : List (Option α) :=
  if _h : 0 < it.offset then
    (UnorderedIter.next it).1 :: UnorderedIter.collect (UnorderedIter.next it).2
  else
    []
termination_by it.offset
decreasing_by
  simp only [UnorderedIter.next, if_pos _h]
  omega

/-- A sequence of insertions, each discarding the evicted value. -/
def insertAll {α : Type} {N : Nat} (w : SlidingWindow α N) (vs : List α) : SlidingWindow α N :=
  vs.foldl (fun w v => (w.insert v).2) w

/-- The window obtained by inserting `vs`, in order, into a fresh
capacity-`N` window. -/
def afterInsertions (α : Type) (N : Nat) (vs : List α) : SlidingWindow α N :=
  insertAll (SlidingWindow.new α N) vs

/-- Abstract effect of one insertion on the list of resident elements in
insertion order (oldest first): append, evicting the head once capacity `N`
is reached. -/
def pushN (N : Nat) {α : Type} (l : List α) (v : α) : List α :=
  if l.length = N then l.drop 1 ++ [v] else l ++ [v]

/-- Abstraction relation `Models w l`: the window `w` holds exactly the elements of `l`, oldest
first, laid out the way the Rust code lays them out.  While not full the
populated slots are exactly the physical indices `[0, write_idx)` and carry
`l` in physical order; once full every slot is populated and the window
content read from physical slot `write_idx` onward (with wraparound) is `l`,
i.e. the storage is the right rotation of `l` by `write_idx`. -/
def Models {α : Type} {N : Nat} (w : SlidingWindow α N) (l : List α) : Prop :=
  w.items.length = N ∧
  (w.is_full = true →
    l.length = N ∧ w.write_idx < N ∧
    w.items = (l.drop (N - w.write_idx) ++ l.take (N - w.write_idx)).map some) ∧
  (w.is_full = false →
    l.length < N ∧ w.write_idx = l.length ∧
    w.items = l.map some ++ List.replicate (N - l.length) none)

instance {α : Type} {N : Nat} [DecidableEq α] (w : SlidingWindow α N) (l : List α) :
    Decidable (Models w l) := by
  unfold Models
  infer_instance

/-- The window states reachable from a fresh window by `insert` and `clear`. -/
inductive Reachable (α : Type) (N : Nat) : SlidingWindow α N → Prop where
  | new : Reachable α N (SlidingWindow.new α N)
  | insert {w : SlidingWindow α N} (v : α) :
      Reachable α N w → Reachable α N (w.insert v).2
  | clear {w : SlidingWindow α N} :
      Reachable α N w → Reachable α N w.clear

/-! ## General list helpers -/

theorem list_set_append_cons {β : Type} (xs : List β) (y v : β) (zs : List β) :
    (xs ++ y :: zs).set xs.length v = xs ++ v :: zs := by
  induction xs with
  | nil => rfl
  | cons x xs ih => simp [ih]

theorem list_getD_append_cons {β : Type} (xs : List β) (y : β) (zs : List β) (d : β) :
    (xs ++ y :: zs).getD xs.length d = y := by
  induction xs with
  | nil => rfl
  | cons x xs ih => simpa using ih

/-! ## Basic consequences of `Models` -/

theorem models_length {α : Type} {N : Nat} {w : SlidingWindow α N} {l : List α}
    (h : Models w l) : w.items.length = N := h.1

theorem models_count {α : Type} {N : Nat} {w : SlidingWindow α N} {l : List α}
    (h : Models w l) : w.count = l.length := by
  obtain ⟨-, hfull, hnot⟩ := h
  unfold SlidingWindow.count
  cases hb : w.is_full with
  | true => simp [(hfull hb).1]
  | false => simp [(hnot hb).2.1]

theorem models_wi_lt {α : Type} {N : Nat} {w : SlidingWindow α N} {l : List α}
    (h : Models w l) : w.write_idx < N := by
  obtain ⟨-, hfull, hnot⟩ := h
  cases hb : w.is_full with
  | true => exact (hfull hb).2.1
  | false =>
    have := (hnot hb).1
    have := (hnot hb).2.1
    omega

theorem models_full_of_len {α : Type} {N : Nat} {w : SlidingWindow α N} {l : List α}
    (h : Models w l) (hl : l.length = N) : w.is_full = true := by
  obtain ⟨-, -, hnot⟩ := h
  cases hb : w.is_full with
  | true => rfl
  | false =>
    have := (hnot hb).1
    omega

theorem models_new {α : Type} {N : Nat} (hN : 1 ≤ N) :
    Models (SlidingWindow.new α N) ([] : List α) := by
  refine ⟨by simp [SlidingWindow.new], ?_, ?_⟩
  · intro hb
    simp [SlidingWindow.new] at hb
  · intro _
    simpa [SlidingWindow.new] using hN

theorem models_read_full {α : Type} {N : Nat} {w : SlidingWindow α N} {l : List α}
    (h : Models w l) (hf : w.is_full = true) (k : Nat) (hk : k < N) :
    w.items.getD ((w.write_idx + k) % N) none = l[k]? := by
  obtain ⟨hlen, hfull, -⟩ := h
  obtain ⟨hlN, hwi, hitems⟩ := hfull hf
  have hA : (l.drop (N - w.write_idx)).length = w.write_idx := by
    rw [List.length_drop, hlN]; omega
  have hB : (l.take (N - w.write_idx)).length = N - w.write_idx := by
    rw [List.length_take, hlN]; omega
  rw [List.getD_eq_getElem?_getD, hitems, List.map_append]
  by_cases hc : k < N - w.write_idx
  · have hj : (w.write_idx + k) % N = w.write_idx + k := Nat.mod_eq_of_lt (by omega)
    rw [hj, List.getElem?_append_right (by rw [List.length_map, hA]; omega)]
    rw [List.length_map, hA, Nat.add_sub_cancel_left, List.getElem?_map, List.getElem?_take,
      if_pos hc]
    cases l[k]? <;> rfl
  · have hj : (w.write_idx + k) % N = w.write_idx + k - N := by
      rw [Nat.mod_eq_sub_mod (by omega)]
      exact Nat.mod_eq_of_lt (by omega)
    rw [hj, List.getElem?_append, if_pos (by rw [List.length_map, hA]; omega)]
    rw [List.getElem?_map, List.getElem?_drop]
    have hidx : N - w.write_idx + (w.write_idx + k - N) = k := by omega
    rw [hidx]
    cases l[k]? <;> rfl

theorem models_read_nonfull {α : Type} {N : Nat} {w : SlidingWindow α N} {l : List α}
    (h : Models w l) (hnf : w.is_full = false) (k : Nat) (hk : k < w.write_idx) :
    w.items.getD k none = l[k]? := by
  obtain ⟨-, -, hnot⟩ := h
  obtain ⟨hlN, hwi, hitems⟩ := hnot hnf
  rw [List.getD_eq_getElem?_getD, hitems, List.getElem?_append,
    if_pos (by rw [List.length_map]; omega), List.getElem?_map]
  cases l[k]? <;> rfl

theorem models_full_all_some {α : Type} {N : Nat} {w : SlidingWindow α N} {l : List α}
    (h : Models w l) (hf : w.is_full = true) (j : Nat) (hj : j < N) :
    (w.items.getD j none).isSome = true := by
  obtain ⟨hlen, hfull, -⟩ := h
  obtain ⟨hlN, hwi, hitems⟩ := hfull hf
  rw [List.getD_eq_getElem?_getD, hitems]
  have hb : j < ((l.drop (N - w.write_idx) ++ l.take (N - w.write_idx)).map some).length := by
    simp only [List.length_map, List.length_append, List.length_drop, List.length_take]
    omega
  rw [List.getElem?_eq_getElem hb, List.getElem_map]
  rfl


/-! ## The effect of one insertion on the modelled content -/

theorem models_insert_nonfull {α : Type} {N : Nat} {w : SlidingWindow α N} {l : List α}
    (h : Models w l) (hnf : w.is_full = false) (v : α) :
    Models (w.insert v).2 (l ++ [v]) ∧ (w.insert v).1 = none ∧
    (w.insert v).2.write_idx = (w.write_idx + 1) % N := by
  obtain ⟨hlen, -, hnot⟩ := h
  obtain ⟨hlN, hwi, hitems⟩ := hnot hnf
  have hset : w.items.set w.write_idx (some v)
      = (l ++ [v]).map some ++ List.replicate (N - (l.length + 1)) none := by
    rw [hitems, hwi]
    rw [show List.replicate (N - l.length) (none : Option α)
        = none :: List.replicate (N - l.length - 1) none by
      rw [← List.replicate_succ]
      congr 1
      omega]
    have hstep := list_set_append_cons (l.map some) (none : Option α) (some v)
        (List.replicate (N - l.length - 1) none)
    rw [List.length_map] at hstep
    rw [hstep, show N - (l.length + 1) = N - l.length - 1 by omega]
    simp [List.map_append]
  by_cases hend : w.write_idx = N - 1
  · have hins : w.insert v = (none, ⟨w.items.set w.write_idx (some v), 0, true⟩) := by
      unfold SlidingWindow.insert
      rw [hnf, if_pos rfl, if_pos hend]
    rw [hins]
    refine ⟨⟨?_, ?_, ?_⟩, rfl, ?_⟩
    · show (w.items.set w.write_idx (some v)).length = N
      rw [List.length_set, hlen]
    · intro _
      refine ⟨by simp; omega, by show 0 < N; omega, ?_⟩
      show w.items.set w.write_idx (some v) = _
      rw [hset]
      rw [show N - (0 : Nat) = (l ++ [v]).length by simp; omega]
      rw [List.drop_length, List.take_length]
      rw [show N - (l.length + 1) = 0 by omega]
      simp
    · intro hb
      simp at hb
    · show 0 = (w.write_idx + 1) % N
      rw [hend, show N - 1 + 1 = N by omega, Nat.mod_self]
  · have hins : w.insert v
        = (none, ⟨w.items.set w.write_idx (some v), w.write_idx + 1, w.is_full⟩) := by
      unfold SlidingWindow.insert
      rw [hnf, if_pos rfl, if_neg hend]
    rw [hins]
    refine ⟨⟨?_, ?_, ?_⟩, rfl, ?_⟩
    · show (w.items.set w.write_idx (some v)).length = N
      rw [List.length_set, hlen]
    · intro hb
      rw [show (none, (⟨w.items.set w.write_idx (some v), w.write_idx + 1,
            w.is_full⟩ : SlidingWindow α N)).2.is_full = w.is_full from rfl, hnf] at hb
      simp at hb
    · intro _
      refine ⟨by simp; omega, by show w.write_idx + 1 = _; simp [hwi], ?_⟩
      show w.items.set w.write_idx (some v) = _
      rw [hset]
      simp
    · show w.write_idx + 1 = (w.write_idx + 1) % N
      rw [Nat.mod_eq_of_lt (by omega)]

theorem models_insert_full {α : Type} {N : Nat} {w : SlidingWindow α N} {l : List α}
    (h : Models w l) (hf : w.is_full = true) (v : α) :
    Models (w.insert v).2 (l.drop 1 ++ [v]) ∧ (w.insert v).1 = l.head? ∧
    (w.insert v).2.write_idx = (w.write_idx + 1) % N := by
  obtain ⟨hlen, hfull, -⟩ := h
  obtain ⟨hlN, hwi, hitems⟩ := hfull hf
  obtain ⟨b, t, rfl⟩ : ∃ b t, l = b :: t := by
    cases l with
    | nil => simp at hlN; omega
    | cons b t => exact ⟨b, t, rfl⟩
  have htlen : t.length = N - 1 := by simp at hlN; omega
  have hK : N - w.write_idx = (N - w.write_idx - 1) + 1 := by omega
  have hdropl : (b :: t).drop (N - w.write_idx) = t.drop (N - w.write_idx - 1) := by
    rw [hK]
    rfl
  have htakel : (b :: t).take (N - w.write_idx) = b :: t.take (N - w.write_idx - 1) := by
    rw [hK]
    rfl
  have hA : (t.drop (N - w.write_idx - 1)).length = w.write_idx := by
    rw [List.length_drop]
    omega
  have hitems2 : w.items = (t.drop (N - w.write_idx - 1)).map some
      ++ some b :: (t.take (N - w.write_idx - 1)).map some := by
    rw [hitems, hdropl, htakel, List.map_append]
    rfl
  have hold : w.items.getD w.write_idx none = some b := by
    rw [hitems2]
    have hx := list_getD_append_cons ((t.drop (N - w.write_idx - 1)).map some) (some b)
        ((t.take (N - w.write_idx - 1)).map some) none
    rw [List.length_map, hA] at hx
    exact hx
  have hset : w.items.set w.write_idx (some v)
      = (t.drop (N - w.write_idx - 1)).map some
        ++ some v :: (t.take (N - w.write_idx - 1)).map some := by
    rw [hitems2]
    have hx := list_set_append_cons ((t.drop (N - w.write_idx - 1)).map some) (some b)
        (some v) ((t.take (N - w.write_idx - 1)).map some)
    rw [List.length_map, hA] at hx
    exact hx
  have hins : w.insert v = (some b, ⟨w.items.set w.write_idx (some v),
      wrapping_add1_limited w.write_idx N, w.is_full⟩) := by
    unfold SlidingWindow.insert
    rw [hf, if_neg (by simp), hold]
  rw [hins]
  by_cases hend : w.write_idx = N - 1
  · have hwz : wrapping_add1_limited w.write_idx N = 0 := by
      unfold wrapping_add1_limited
      rw [if_pos hend]
    refine ⟨⟨?_, ?_, ?_⟩, rfl, ?_⟩
    · show (w.items.set w.write_idx (some v)).length = N
      rw [List.length_set, hlen]
    · intro _
      refine ⟨by simp; omega, ?_, ?_⟩
      · show wrapping_add1_limited w.write_idx N < N
        rw [hwz]
        omega
      · show w.items.set w.write_idx (some v)
            = (((t ++ [v]).drop (N - wrapping_add1_limited w.write_idx N)
              ++ (t ++ [v]).take (N - wrapping_add1_limited w.write_idx N)).map some)
        rw [hwz, Nat.sub_zero]
        rw [List.drop_eq_nil_of_le (by simp; omega), List.take_of_length_le (by simp; omega)]
        rw [hset, hend]
        simp
        rw [show N - (N - 1) - 1 = 0 by omega]
        simp
    · intro hb
      exact Bool.noConfusion (hf.symm.trans hb)
    · show wrapping_add1_limited w.write_idx N = (w.write_idx + 1) % N
      rw [hwz, hend, show N - 1 + 1 = N by omega, Nat.mod_self]
  · have hwz : wrapping_add1_limited w.write_idx N = w.write_idx + 1 := by
      unfold wrapping_add1_limited
      rw [if_neg hend]
    refine ⟨⟨?_, ?_, ?_⟩, rfl, ?_⟩
    · show (w.items.set w.write_idx (some v)).length = N
      rw [List.length_set, hlen]
    · intro _
      refine ⟨by simp; omega, ?_, ?_⟩
      · show wrapping_add1_limited w.write_idx N < N
        rw [hwz]
        omega
      · show w.items.set w.write_idx (some v)
            = (((t ++ [v]).drop (N - wrapping_add1_limited w.write_idx N)
              ++ (t ++ [v]).take (N - wrapping_add1_limited w.write_idx N)).map some)
        rw [hwz]
        rw [List.drop_append_eq_append_drop, List.take_append_eq_append_take]
        rw [show N - (w.write_idx + 1) - t.length = 0 by omega]
        rw [hset]
        simp [List.map_append]
        rw [show N - (w.write_idx + 1) = N - w.write_idx - 1 by omega]
    · intro hb
      exact Bool.noConfusion (hf.symm.trans hb)
    · show wrapping_add1_limited w.write_idx N = (w.write_idx + 1) % N
      rw [hwz, Nat.mod_eq_of_lt (by omega)]

theorem models_insert {α : Type} {N : Nat} {w : SlidingWindow α N} {l : List α}
    (h : Models w l) (v : α) :
    Models (w.insert v).2 (pushN N l v) ∧
    (w.insert v).1 = (if w.is_full = true then l.head? else none) ∧
    (w.insert v).2.write_idx = (w.write_idx + 1) % N := by
  cases hb : w.is_full with
  | true =>
    have hx := models_insert_full h hb v
    have hlN : l.length = N := ((h.2.1) hb).1
    rw [pushN, if_pos hlN]
    refine ⟨hx.1, ?_, hx.2.2⟩
    rw [if_pos rfl]
    exact hx.2.1
  | false =>
    have hx := models_insert_nonfull h hb v
    have hlN : l.length < N := ((h.2.2) hb).1
    rw [pushN, if_neg (by omega)]
    refine ⟨hx.1, ?_, hx.2.2⟩
    rw [if_neg (by simp)]
    exact hx.2.1

theorem models_insertAll {α : Type} {N : Nat} {w : SlidingWindow α N} {l : List α}
    (h : Models w l) (vs : List α) :
    Models (insertAll w vs) (vs.foldl (pushN N) l) := by
  induction vs generalizing w l with
  | nil => exact h
  | cons v vs ih => exact ih (models_insert h v).1

theorem pushN_length_le {α : Type} {N : Nat} (hN : 1 ≤ N) {l : List α}
    (hl : l.length ≤ N) (v : α) : (pushN N l v).length ≤ N := by
  unfold pushN
  by_cases hc : l.length = N
  · rw [if_pos hc]
    simp only [List.length_append, List.length_drop, List.length_singleton]
    omega
  · rw [if_neg hc]
    simp only [List.length_append, List.length_singleton]
    omega

theorem foldl_pushN_drop {α : Type} {N : Nat} (hN : 1 ≤ N) :
    ∀ (vs : List α) (l : List α), l.length ≤ N →
      vs.foldl (pushN N) l = (l ++ vs).drop (l.length + vs.length - N) := by
  intro vs
  induction vs with
  | nil =>
    intro l hl
    simp [show l.length - N = 0 from by omega]
  | cons v vs ih =>
    intro l hl
    rw [List.foldl_cons, ih (pushN N l v) (pushN_length_le hN hl v)]
    by_cases hc : l.length = N
    · have hpush : pushN N l v = l.drop 1 ++ [v] := by rw [pushN, if_pos hc]
      have hplen : (pushN N l v).length = N := by
        rw [hpush]
        simp only [List.length_append, List.length_drop, List.length_singleton]
        omega
      rw [hplen, hpush]
      rw [show N + vs.length - N = vs.length from by omega]
      obtain ⟨b, t, rfl⟩ : ∃ b t, l = b :: t := by
        cases l with
        | nil => simp at hc; omega
        | cons b t => exact ⟨b, t, rfl⟩
      rw [show (b :: t).length + (v :: vs).length - N = vs.length + 1 from by
        simp only [List.length_cons] at hc ⊢
        omega]
      rw [show ((b :: t) ++ v :: vs : List α) = b :: (t ++ v :: vs) from rfl]
      rw [show List.drop 1 (b :: t) = t from rfl]
      rw [List.append_assoc, List.singleton_append]
      rfl
    · have hpush : pushN N l v = l ++ [v] := by rw [pushN, if_neg hc]
      have hplen : (pushN N l v).length = l.length + 1 := by
        rw [hpush]
        simp
      rw [hplen, hpush]
      rw [List.append_assoc, List.singleton_append]
      rw [show l.length + (v :: vs).length - N = l.length + 1 + vs.length - N from by
        simp only [List.length_cons]
        omega]

theorem models_afterInsertions {α : Type} {N : Nat} (hN : 1 ≤ N) (vs : List α) :
    Models (afterInsertions α N vs) (vs.drop (vs.length - N)) := by
  have hx := models_insertAll (models_new (α := α) hN) vs
  rwa [foldl_pushN_drop hN vs [] (by simp), List.nil_append, List.length_nil,
    Nat.zero_add] at hx

/-! ## Reachable states satisfy the invariant -/

theorem reachable_models {α : Type} {N : Nat} (hN : 1 ≤ N) {w : SlidingWindow α N}
    (hr : Reachable α N w) : ∃ l, Models w l := by
  induction hr with
  | new => exact ⟨[], models_new hN⟩
  | insert v _ ih =>
    obtain ⟨l, hl⟩ := ih
    exact ⟨pushN N l v, (models_insert hl v).1⟩
  | clear _ _ => exact ⟨[], models_new hN⟩

/-! ## Unfolding equations for the iterator runs -/

theorem iter_collect_eq {α : Type} {N : Nat} (it : Iter α N) :
    Iter.collect it = if it.offset < it.count then
      (Iter.next it).1 :: Iter.collect (Iter.next it).2 else [] := by
  rw [Iter.collect]
  split <;> rfl

theorem iter_collect_step {α : Type} {N : Nat} (w : SlidingWindow α N) (s k c : Nat)
    (hk : k < c) :
    Iter.collect (⟨w, s, k, c⟩ : Iter α N)
      = w.items.getD (wrapping_add_limited s k N) none :: Iter.collect ⟨w, s, k + 1, c⟩ := by
  rw [iter_collect_eq]
  simp [Iter.next, hk]

theorem iter_collect_stop {α : Type} {N : Nat} (w : SlidingWindow α N) (s k c : Nat)
    (hk : ¬k < c) :
    Iter.collect (⟨w, s, k, c⟩ : Iter α N) = [] := by
  rw [iter_collect_eq]
  simp [hk]

theorem ucollect_eq {α : Type} {N : Nat} (it : UnorderedIter α N) :
    UnorderedIter.collect it = if 0 < it.offset then
      (UnorderedIter.next it).1 :: UnorderedIter.collect (UnorderedIter.next it).2 else [] := by
  rw [UnorderedIter.collect]
  split <;> rfl

theorem ucollect_step {α : Type} {N : Nat} (w : SlidingWindow α N) (o : Nat) :
    UnorderedIter.collect (⟨w, o + 1⟩ : UnorderedIter α N)
      = w.items.getD o none :: UnorderedIter.collect ⟨w, o⟩ := by
  rw [ucollect_eq]
  simp [UnorderedIter.next]

theorem ucollect_zero {α : Type} {N : Nat} (w : SlidingWindow α N) :
    UnorderedIter.collect (⟨w, 0⟩ : UnorderedIter α N) = [] := by
  rw [ucollect_eq]
  simp

/-- The slot the ordered iterator reads at logical position `k` holds the
`k`-th oldest resident element. -/
theorem models_read_start {α : Type} {N : Nat} (hb : N ≤ 2 ^ 63)
    {w : SlidingWindow α N} {l : List α} (h : Models w l) (k : Nat) (hk : k < l.length) :
    w.items.getD
        (wrapping_add_limited (if w.is_full = true then w.write_idx else 0) k N) none
      = l[k]? := by
  have hmax : USIZE_MAX = 18446744073709551615 := by norm_num [USIZE_MAX]
  have hpow : (2 : Nat) ^ 63 = 9223372036854775808 := by norm_num
  rw [hpow] at hb
  cases hf : w.is_full with
  | true =>
    have hwi := (h.2.1 hf).2.1
    have hlN := (h.2.1 hf).1
    rw [if_pos rfl]
    have hnov : w.write_idx + k ≤ USIZE_MAX := by rw [hmax]; omega
    rw [show wrapping_add_limited w.write_idx k N = (w.write_idx + k) % N from by
      rw [wrapping_add_limited, if_pos hnov]]
    exact models_read_full ⟨h.1, h.2.1, h.2.2⟩ hf k (by omega)
  | false =>
    have hwi := (h.2.2 hf).2.1
    have hlN := (h.2.2 hf).1
    rw [if_neg (by simp)]
    have hnov : 0 + k ≤ USIZE_MAX := by rw [hmax]; omega
    rw [show wrapping_add_limited 0 k N = k from by
      rw [wrapping_add_limited, if_pos hnov, Nat.zero_add, Nat.mod_eq_of_lt (by omega)]]
    exact models_read_nonfull ⟨h.1, h.2.1, h.2.2⟩ hf k (by omega)

theorem iter_collect_from {α : Type} {N : Nat} (hb : N ≤ 2 ^ 63)
    {w : SlidingWindow α N} {l : List α} (h : Models w l) :
    ∀ d k, w.count - k = d →
      Iter.collect (⟨w, if w.is_full = true then w.write_idx else 0, k, w.count⟩ : Iter α N)
        = (l.drop k).map some := by
  have hcount := models_count h
  intro d
  induction d with
  | zero =>
    intro k hd
    rw [iter_collect_stop _ _ _ _ (by omega)]
    rw [List.drop_eq_nil_of_le (by omega)]
    rfl
  | succ d ih =>
    intro k hd
    have hklt : k < w.count := by omega
    rw [iter_collect_step _ _ _ _ hklt]
    rw [models_read_start hb h k (by omega)]
    rw [ih (k + 1) (by omega)]
    rw [← List.getElem_cons_drop l k (by omega), List.map_cons,
      List.getElem?_eq_getElem (by omega)]

/-- Running the ordered iterator of a modelled window yields exactly the
resident elements, oldest first. -/
theorem iter_collect_models {α : Type} {N : Nat} (hb : N ≤ 2 ^ 63)
    {w : SlidingWindow α N} {l : List α} (h : Models w l) :
    Iter.collect w.iter = l.map some := by
  have hx := iter_collect_from hb h w.count 0 (by omega)
  rw [show w.iter = (⟨w, if w.is_full = true then w.write_idx else 0, 0, w.count⟩ :
    Iter α N) from rfl]
  rw [hx, List.drop_zero]

/-- Running the unordered iterator from offset `o` yields the first `o`
physical slots in reverse order. -/
theorem ucollect_take {α : Type} {N : Nat} (w : SlidingWindow α N) :
    ∀ o, o ≤ w.items.length →
      UnorderedIter.collect (⟨w, o⟩ : UnorderedIter α N) = (w.items.take o).reverse := by
  intro o
  induction o with
  | zero =>
    intro _
    rw [ucollect_zero]
    simp
  | succ o ih =>
    intro ho
    rw [ucollect_step, ih (by omega)]
    rw [List.getD_eq_getElem _ _ (by omega)]
    rw [List.take_succ, List.getElem?_eq_getElem (by omega : o < w.items.length),
      Option.toList_some, List.reverse_append, List.reverse_singleton, List.singleton_append]

/-- In a full modelled window the oldest resident element sits at the write
cursor. -/
theorem models_oldest_at_cursor {α : Type} {N : Nat} {w : SlidingWindow α N} {l : List α}
    (h : Models w l) (hf : w.is_full = true) :
    w.items.getD w.write_idx none = l.head? := by
  have hwi := (h.2.1 hf).2.1
  have h0 := models_read_full h hf 0 (by omega)
  rw [Nat.add_zero, Nat.mod_eq_of_lt hwi] at h0
  rw [h0]
  cases l <;> simp

theorem models_count_le {α : Type} {N : Nat} {w : SlidingWindow α N} {l : List α}
    (h : Models w l) : w.count ≤ N := by
  rw [models_count h]
  cases hb : w.is_full with
  | true => exact le_of_eq (h.2.1 hb).1
  | false => exact le_of_lt (h.2.2 hb).1

/-! ## The claims -/

/-- C1 counterexample: the claim says every indexed read with
`idx ≥ count()` fails, for every window state.  On a FULL window the code
takes the `is_full` branch of `Index::index`, which has no bound check: with
capacity 2 after inserting 1, 2 we have `count() = 2`, yet reading index 2
succeeds and returns element 1 instead of failing. -/
theorem c1_full_read_beyond_count_succeeds :
    (afterInsertions Nat 2 [1, 2]).count = 2 ∧
    SlidingWindow.index (afterInsertions Nat 2 [1, 2]) 2 = some 1 := by
  decide

/-- C1 (amended): an indexed read fails exactly when the window is NOT full
and `idx ≥ count()`; while not full it succeeds precisely for
`idx < count()`, and once the window is full every indexed read succeeds
(the index is reduced modulo N). -/
theorem c1_index_fails_iff_not_full_out_of_range {α : Type} {N : Nat} (hN : 1 ≤ N)
    {w : SlidingWindow α N} {l : List α} (h : Models w l) (idx : Nat) :
    (w.is_full = false → ((w.index idx).isSome = true ↔ idx < w.count)) ∧
    (w.is_full = true → (w.index idx).isSome = true) := by
  constructor
  · intro hnf
    have hlN := (h.2.2 hnf).1
    have hwi := (h.2.2 hnf).2.1
    rw [SlidingWindow.index]
    rw [if_neg (show ¬w.is_full = true by simp [hnf])]
    rw [SlidingWindow.count]
    rw [if_neg (show ¬w.is_full = true by simp [hnf])]
    by_cases hidx : idx < w.write_idx
    · rw [if_pos hidx, models_read_nonfull h hnf idx hidx,
        List.getElem?_eq_getElem (by omega)]
      simp [hidx]
    · rw [if_neg hidx]
      simp [hidx]
  · intro hf
    have hwi := (h.2.1 hf).2.1
    rw [SlidingWindow.index, if_pos hf]
    apply models_full_all_some h hf
    rw [wrapping_add_limited]
    by_cases hc : w.write_idx + idx ≤ USIZE_MAX
    · rw [if_pos hc]
      exact Nat.mod_lt _ (by omega)
    · rw [if_neg hc]
      exact Nat.mod_lt _ (by omega)

theorem c1_index_fails_iff_not_full_out_of_range_witness :
    1 ≤ 3 ∧ Models (afterInsertions Nat 3 [5]) [5] ∧
    (((afterInsertions Nat 3 [5]).is_full = false →
      (((afterInsertions Nat 3 [5]).index 1).isSome = true ↔
        1 < (afterInsertions Nat 3 [5]).count)) ∧
    ((afterInsertions Nat 3 [5]).is_full = true →
      (((afterInsertions Nat 3 [5]).index 1).isSome = true))) :=
  have hm : Models (afterInsertions Nat 3 [5]) [5] := by decide
  ⟨by decide, hm, c1_index_fails_iff_not_full_out_of_range (by decide) hm 1⟩

/-- C2: at `base = usize::MAX`, `offset = 1`, `capacity = 10` the overflow
branch of `wrapping_add_limited` returns 1, while the mathematically exact
modular sum `(base + offset) mod capacity = 2^64 mod 10` is 6: the code
subtracts `usize::MAX` (that is `2^64 - 1`) instead of `2^64` from the
overflowed sum, so it is off by one whenever the capacity does not divide
`2^64 - 1`.  (The crate's own test vector only exercises overflow with
`capacity = usize::MAX`, which divides `2^64 - 1` and so hides the slip.) -/
theorem c2_wrapping_add_overflow_off_by_one :
    wrapping_add_limited (2 ^ 64 - 1) 1 10 = 1 ∧ (2 ^ 64 - 1 + 1) % 10 = 6 ∧
    wrapping_add_limited (2 ^ 64 - 1) 1 10 ≠ (2 ^ 64 - 1 + 1) % 10 := by
  refine ⟨by decide, by decide, by decide⟩

/-- C3 counterexample: the claim asserts `is_full()` is false after any
`k ≤ N` insertions, but the N-th insertion sets the full flag: with capacity
1, after inserting one element `count() = 1` and `is_full()` is already
true. -/
theorem c3_nth_insertion_sets_full :
    (afterInsertions Nat 1 [7]).count = 1 ∧ (afterInsertions Nat 1 [7]).is_full = true := by
  decide

/-- C3 (amended): after `k ≤ N` insertions into a fresh capacity-N window,
`count()` equals k, and `is_full()` is true exactly when `k = N` (so it is
false for every `k < N`). -/
theorem c3_count_after_k_insertions {α : Type} {N : Nat} (hN : 1 ≤ N) (vs : List α)
    (hk : vs.length ≤ N) :
    (afterInsertions α N vs).count = vs.length ∧
    ((afterInsertions α N vs).is_full = true ↔ vs.length = N) := by
  have hm := models_afterInsertions hN vs
  rw [show vs.length - N = 0 from by omega, List.drop_zero] at hm
  refine ⟨models_count hm, ?_, ?_⟩
  · intro hf
    exact (hm.2.1 hf).1
  · intro hlen
    exact models_full_of_len hm hlen

theorem c3_count_after_k_insertions_witness :
    1 ≤ 2 ∧ [4].length ≤ 2 ∧
    ((afterInsertions Nat 2 [4]).count = [4].length ∧
      ((afterInsertions Nat 2 [4]).is_full = true ↔ [4].length = 2)) :=
  ⟨by decide, by decide, c3_count_after_k_insertions (by decide) [4] (by decide)⟩

/-- C4: `insert(item)` writes `item` into the slot at the write cursor,
returns the previously resident oldest element exactly when the window was
full before the call (and `None` otherwise), and always advances the write
cursor to `(write cursor + 1) mod N`; after inserting into a full window the
count stays N and the window stays full.  (Instantiating `w` at the state
after exactly N insertions — where the modelled content is the whole
insertion sequence — the returned element is the first-ever-inserted one.) -/
theorem c4_insert_contract {α : Type} {N : Nat} (hN : 1 ≤ N) {w : SlidingWindow α N}
    {l : List α} (h : Models w l) (v : α) :
    (w.insert v).2.items.getD w.write_idx none = some v ∧
    (w.insert v).1 = (if w.is_full = true then l.head? else none) ∧
    (w.is_full = true → ((w.insert v).1).isSome = true) ∧
    (w.insert v).2.write_idx = (w.write_idx + 1) % N ∧
    (w.is_full = true → (w.insert v).2.count = N ∧ (w.insert v).2.is_full = true) := by
  have hx := models_insert h v
  have hwi : w.write_idx < N := models_wi_lt h
  have hlen := h.1
  refine ⟨?_, hx.2.1, ?_, hx.2.2, ?_⟩
  · have hitems : (w.insert v).2.items = w.items.set w.write_idx (some v) := by
      rw [SlidingWindow.insert]
      by_cases hb : w.is_full = false
      · rw [if_pos hb]
        by_cases he : w.write_idx = N - 1
        · rw [if_pos he]
        · rw [if_neg he]
      · rw [if_neg hb]
    rw [hitems, List.getD_eq_getElem _ _ (by rw [List.length_set, hlen]; omega)]
    exact List.getElem_set_self (h := by rw [List.length_set, hlen]; omega)
  · intro hf
    rw [hx.2.1, if_pos hf]
    have hlN := (h.2.1 hf).1
    cases l with
    | nil => simp at hlN; omega
    | cons b t => rfl
  · intro hf
    have hfull2 : (w.insert v).2.is_full = true := by
      apply models_full_of_len hx.1
      rw [pushN, if_pos (h.2.1 hf).1]
      have hlN := (h.2.1 hf).1
      simp only [List.length_append, List.length_drop, List.length_singleton]
      omega
    refine ⟨?_, hfull2⟩
    rw [SlidingWindow.count, if_pos hfull2]

theorem c4_insert_contract_witness :
    1 ≤ 2 ∧ Models (afterInsertions Nat 2 [1, 2]) [1, 2] ∧
    (((afterInsertions Nat 2 [1, 2]).insert 9).2.items.getD
        (afterInsertions Nat 2 [1, 2]).write_idx none = some 9 ∧
    ((afterInsertions Nat 2 [1, 2]).insert 9).1 =
      (if (afterInsertions Nat 2 [1, 2]).is_full = true then [1, 2].head? else none) ∧
    ((afterInsertions Nat 2 [1, 2]).is_full = true →
      (((afterInsertions Nat 2 [1, 2]).insert 9).1).isSome = true) ∧
    ((afterInsertions Nat 2 [1, 2]).insert 9).2.write_idx =
      ((afterInsertions Nat 2 [1, 2]).write_idx + 1) % 2 ∧
    ((afterInsertions Nat 2 [1, 2]).is_full = true →
      ((afterInsertions Nat 2 [1, 2]).insert 9).2.count = 2 ∧
      ((afterInsertions Nat 2 [1, 2]).insert 9).2.is_full = true)) :=
  have hm : Models (afterInsertions Nat 2 [1, 2]) [1, 2] := by decide
  ⟨by decide, hm, c4_insert_contract (by decide) hm 9⟩

/-- C5: after `M > N` insertions `v1..vM` into a fresh capacity-N window the
window is full, the ordered iterator starts at the physical slot equal to
the write cursor, snapshots `count()`, and collecting it yields exactly the
last N inserted values — insertions `M-N+1 .. M` — oldest first, i.e.
exactly the snapshotted `count() = N` elements. -/
theorem c5_ordered_iter_last_n {α : Type} {N : Nat} (hN : 1 ≤ N) (hb : N ≤ 2 ^ 63)
    (vs : List α) (hM : N < vs.length) :
    (afterInsertions α N vs).is_full = true ∧
    (afterInsertions α N vs).iter.start = (afterInsertions α N vs).write_idx ∧
    (afterInsertions α N vs).iter.count = (afterInsertions α N vs).count ∧
    Iter.collect (afterInsertions α N vs).iter = (vs.drop (vs.length - N)).map some ∧
    (Iter.collect (afterInsertions α N vs).iter).length = N := by
  have hm := models_afterInsertions hN vs
  have hlen : (vs.drop (vs.length - N)).length = N := by
    rw [List.length_drop]
    omega
  have hf : (afterInsertions α N vs).is_full = true := models_full_of_len hm hlen
  refine ⟨hf, ?_, rfl, ?_, ?_⟩
  · simp [SlidingWindow.iter, hf]
  · exact iter_collect_models hb hm
  · rw [iter_collect_models hb hm, List.length_map]
    exact hlen

theorem c5_ordered_iter_last_n_witness :
    1 ≤ 2 ∧ 2 ≤ 2 ^ 63 ∧ 2 < [1, 2, 3].length ∧
    ((afterInsertions Nat 2 [1, 2, 3]).is_full = true ∧
    (afterInsertions Nat 2 [1, 2, 3]).iter.start =
      (afterInsertions Nat 2 [1, 2, 3]).write_idx ∧
    (afterInsertions Nat 2 [1, 2, 3]).iter.count = (afterInsertions Nat 2 [1, 2, 3]).count ∧
    Iter.collect (afterInsertions Nat 2 [1, 2, 3]).iter =
      ([1, 2, 3].drop ([1, 2, 3].length - 2)).map some ∧
    (Iter.collect (afterInsertions Nat 2 [1, 2, 3]).iter).length = 2) :=
  ⟨by decide, by decide, by decide,
    c5_ordered_iter_last_n (by decide) (by decide) [1, 2, 3] (by decide)⟩

/-- C6: `count()` returns the number of resident (populated) elements —
equal to the write cursor while the window is not full and equal to N once
it is full — and `is_full()` is true exactly when N elements are
resident. -/
theorem c6_count_and_is_full {α : Type} {N : Nat} (_hN : 1 ≤ N) {w : SlidingWindow α N}
    {l : List α} (h : Models w l) :
    w.count = w.items.countP (fun o => o.isSome) ∧
    (w.is_full = false → w.count = w.write_idx) ∧
    (w.is_full = true → w.count = N) ∧
    (w.is_full = true ↔ w.count = N) := by
  have hcnt := models_count h
  refine ⟨?_, ?_, ?_, ?_⟩
  · cases hb : w.is_full with
    | true =>
      obtain ⟨hlN, hwi, hitems⟩ := h.2.1 hb
      rw [hcnt, hitems, List.countP_map]
      rw [show ((fun o : Option α => o.isSome) ∘ some) = fun _ : α => true from by
        funext a
        rfl]
      rw [List.countP_true]
      simp only [List.length_append, List.length_drop, List.length_take]
      omega
    | false =>
      obtain ⟨hlN, hwi, hitems⟩ := h.2.2 hb
      rw [hcnt, hitems, List.countP_append, List.countP_map]
      rw [show ((fun o : Option α => o.isSome) ∘ some) = fun _ : α => true from by
        funext a
        rfl]
      rw [List.countP_true]
      rw [List.countP_eq_zero.mpr (by
        intro x hx
        rw [List.eq_of_mem_replicate hx]
        simp)]
      omega
  · intro hnf
    rw [SlidingWindow.count, if_neg (by simp [hnf])]
  · intro hf
    rw [SlidingWindow.count, if_pos hf]
  · constructor
    · intro hf
      rw [SlidingWindow.count, if_pos hf]
    · intro hc
      cases hb : w.is_full with
      | true => rfl
      | false =>
        have hlt := (h.2.2 hb).1
        rw [hcnt] at hc
        omega

theorem c6_count_and_is_full_witness :
    1 ≤ 2 ∧ Models (afterInsertions Nat 2 [1]) [1] ∧
    ((afterInsertions Nat 2 [1]).count =
      (afterInsertions Nat 2 [1]).items.countP (fun o => o.isSome) ∧
    ((afterInsertions Nat 2 [1]).is_full = false →
      (afterInsertions Nat 2 [1]).count = (afterInsertions Nat 2 [1]).write_idx) ∧
    ((afterInsertions Nat 2 [1]).is_full = true → (afterInsertions Nat 2 [1]).count = 2) ∧
    ((afterInsertions Nat 2 [1]).is_full = true ↔ (afterInsertions Nat 2 [1]).count = 2)) :=
  have hm : Models (afterInsertions Nat 2 [1]) [1] := by decide
  ⟨by decide, hm, c6_count_and_is_full (by decide) hm⟩

/-- C7: the unordered iterator yields exactly `count()` elements, walking the
physical slots in descending order from the last populated index
(`count() - 1`) down to 0; every yielded element comes from a populated
slot, and the yielded elements are a permutation of the resident elements. -/
theorem c7_unordered_iter_contract {α : Type} {N : Nat} (_hN : 1 ≤ N)
    {w : SlidingWindow α N} {l : List α} (h : Models w l) :
    UnorderedIter.collect w.iter_unordered = (w.items.take w.count).reverse ∧
    (UnorderedIter.collect w.iter_unordered).length = w.count ∧
    (UnorderedIter.collect w.iter_unordered).all (fun x => x.isSome) = true ∧
    List.Perm (UnorderedIter.collect w.iter_unordered) (l.map some) ∧
    (0 < w.count → (UnorderedIter.collect w.iter_unordered).head?
      = some (w.items.getD (w.count - 1) none)) := by
  have hcle : w.count ≤ w.items.length := by
    rw [h.1]
    exact models_count_le h
  have hcoll : UnorderedIter.collect w.iter_unordered = (w.items.take w.count).reverse := by
    rw [show w.iter_unordered = (⟨w, w.count⟩ : UnorderedIter α N) from rfl]
    exact ucollect_take w w.count hcle
  have hperm : List.Perm (w.items.take w.count) (l.map some) := by
    cases hb : w.is_full with
    | true =>
      obtain ⟨hlN, hwi, hitems⟩ := h.2.1 hb
      have hcN : w.count = N := by rw [SlidingWindow.count, if_pos hb]
      rw [hcN, List.take_of_length_le (le_of_eq h.1), hitems]
      refine List.Perm.map some ?_
      conv_rhs => rw [← List.take_append_drop (N - w.write_idx) l]
      exact List.perm_append_comm
    | false =>
      obtain ⟨hlN, hwi, hitems⟩ := h.2.2 hb
      have hcwi : w.count = w.write_idx := by
        rw [SlidingWindow.count, if_neg (by simp [hb])]
      rw [hcwi, hitems, hwi]
      rw [show l.length = (l.map some).length from (List.length_map l some).symm,
        List.take_left]
  refine ⟨hcoll, ?_, ?_, ?_, ?_⟩
  · rw [hcoll, List.length_reverse, List.length_take]
    exact Nat.min_eq_left hcle
  · rw [List.all_eq_true]
    intro x hx
    rw [hcoll, List.mem_reverse] at hx
    obtain ⟨a, -, rfl⟩ := List.mem_map.mp (hperm.mem_iff.mp hx)
    rfl
  · rw [hcoll]
    exact (List.reverse_perm _).trans hperm
  · intro hc
    obtain ⟨m, hm⟩ : ∃ m, w.count = m + 1 := ⟨w.count - 1, by omega⟩
    rw [show w.iter_unordered = (⟨w, w.count⟩ : UnorderedIter α N) from rfl, hm,
      ucollect_step]
    simp

theorem c7_unordered_iter_contract_witness :
    1 ≤ 2 ∧ Models (afterInsertions Nat 2 [1, 2, 3]) [2, 3] ∧
    (UnorderedIter.collect (afterInsertions Nat 2 [1, 2, 3]).iter_unordered =
      ((afterInsertions Nat 2 [1, 2, 3]).items.take
        (afterInsertions Nat 2 [1, 2, 3]).count).reverse ∧
    (UnorderedIter.collect (afterInsertions Nat 2 [1, 2, 3]).iter_unordered).length =
      (afterInsertions Nat 2 [1, 2, 3]).count ∧
    (UnorderedIter.collect (afterInsertions Nat 2 [1, 2, 3]).iter_unordered).all
      (fun x => x.isSome) = true ∧
    List.Perm (UnorderedIter.collect (afterInsertions Nat 2 [1, 2, 3]).iter_unordered)
      ([2, 3].map some) ∧
    (0 < (afterInsertions Nat 2 [1, 2, 3]).count →
      (UnorderedIter.collect (afterInsertions Nat 2 [1, 2, 3]).iter_unordered).head?
        = some ((afterInsertions Nat 2 [1, 2, 3]).items.getD
            ((afterInsertions Nat 2 [1, 2, 3]).count - 1) none))) :=
  have hm : Models (afterInsertions Nat 2 [1, 2, 3]) [2, 3] := by decide
  ⟨by decide, hm, c7_unordered_iter_contract (by decide) hm⟩

/-- C8: every state reachable from the fresh window by `insert` and `clear`
satisfies the structural invariant: the write cursor lies in `[0, N)`, at
most N elements are resident, the storage always has exactly N slots, and
there is a list `l` of the resident elements in insertion order such that —
while not full — the populated slots are exactly the physical indices
`[0, write cursor)` holding `l` in order, and — once full — all N slots are
populated with the oldest element residing at the write cursor. -/
theorem c8_reachable_invariant {α : Type} {N : Nat} (hN : 1 ≤ N) {w : SlidingWindow α N}
    (hr : Reachable α N w) :
    w.write_idx < N ∧ w.count ≤ N ∧ w.items.length = N ∧
    ∃ l, Models w l ∧
      (w.is_full = false →
        w.items = l.map some ++ List.replicate (N - l.length) none ∧
        w.write_idx = l.length) ∧
      (w.is_full = true →
        l.length = N ∧ w.items.getD w.write_idx none = l.head?) := by
  obtain ⟨l, hm⟩ := reachable_models hN hr
  refine ⟨models_wi_lt hm, models_count_le hm, hm.1, l, hm, ?_, ?_⟩
  · intro hnf
    exact ⟨(hm.2.2 hnf).2.2, (hm.2.2 hnf).2.1⟩
  · intro hf
    exact ⟨(hm.2.1 hf).1, models_oldest_at_cursor hm hf⟩

theorem c8_reachable_invariant_witness :
    1 ≤ 2 ∧
    ((SlidingWindow.new Nat 2).write_idx < 2 ∧ (SlidingWindow.new Nat 2).count ≤ 2 ∧
    (SlidingWindow.new Nat 2).items.length = 2 ∧
    ∃ l, Models (SlidingWindow.new Nat 2) l ∧
      ((SlidingWindow.new Nat 2).is_full = false →
        (SlidingWindow.new Nat 2).items =
          l.map some ++ List.replicate (2 - l.length) none ∧
        (SlidingWindow.new Nat 2).write_idx = l.length) ∧
      ((SlidingWindow.new Nat 2).is_full = true →
        l.length = 2 ∧
        (SlidingWindow.new Nat 2).items.getD (SlidingWindow.new Nat 2).write_idx none
          = l.head?)) :=
  ⟨by decide, c8_reachable_invariant (by decide) Reachable.new⟩

/-- C9: `clear()` resets any window to the empty state: afterwards
`count()` is 0, `is_full()` is false, the write cursor is 0 and no slot is
populated. -/
theorem c9_clear_resets (α : Type) (N : Nat) (w : SlidingWindow α N) :
    w.clear.count = 0 ∧ w.clear.is_full = false ∧ w.clear.write_idx = 0 ∧
    w.clear.items = List.replicate N none :=
  ⟨rfl, rfl, rfl, rfl⟩

/-- C10: on a full window the indexed read never fails, even for
`idx ≥ count()`, as long as `write cursor + idx` does not overflow `usize`:
it returns the resident element at physical slot
`(write cursor + idx) mod N`, and hence `window[idx] = window[idx mod N]`. -/
theorem c10_full_index_wraps {α : Type} {N : Nat} (hN : 1 ≤ N) {w : SlidingWindow α N}
    {l : List α} (h : Models w l) (hf : w.is_full = true) (idx : Nat)
    (hov : w.write_idx + idx ≤ USIZE_MAX) :
    w.index idx = w.items.getD ((w.write_idx + idx) % N) none ∧
    (w.index idx).isSome = true ∧
    w.index idx = w.index (idx % N) := by
  have hwi := (h.2.1 hf).2.1
  have hunf : w.index idx = w.items.getD ((w.write_idx + idx) % N) none := by
    rw [SlidingWindow.index, if_pos hf, wrapping_add_limited, if_pos hov]
  refine ⟨hunf, ?_, ?_⟩
  · rw [hunf]
    exact models_full_all_some h hf _ (Nat.mod_lt _ (by omega))
  · have hov2 : w.write_idx + idx % N ≤ USIZE_MAX :=
      le_trans (Nat.add_le_add_left (Nat.mod_le idx N) _) hov
    have hunf2 : w.index (idx % N) = w.items.getD ((w.write_idx + idx % N) % N) none := by
      rw [SlidingWindow.index, if_pos hf, wrapping_add_limited, if_pos hov2]
    rw [hunf, hunf2]
    congr 1
    conv_lhs => rw [Nat.add_mod]
    conv_rhs => rw [Nat.add_mod]
    rw [Nat.mod_mod_of_dvd idx dvd_rfl]

theorem c10_full_index_wraps_witness :
    1 ≤ 2 ∧ Models (afterInsertions Nat 2 [1, 2, 3]) [2, 3] ∧
    (afterInsertions Nat 2 [1, 2, 3]).is_full = true ∧
    (afterInsertions Nat 2 [1, 2, 3]).write_idx + 5 ≤ USIZE_MAX ∧
    ((afterInsertions Nat 2 [1, 2, 3]).index 5 =
      (afterInsertions Nat 2 [1, 2, 3]).items.getD
        (((afterInsertions Nat 2 [1, 2, 3]).write_idx + 5) % 2) none ∧
    ((afterInsertions Nat 2 [1, 2, 3]).index 5).isSome = true ∧
    (afterInsertions Nat 2 [1, 2, 3]).index 5 = (afterInsertions Nat 2 [1, 2, 3]).index (5 % 2)) :=
  have hm : Models (afterInsertions Nat 2 [1, 2, 3]) [2, 3] := by decide
  ⟨by decide, hm, by decide, by decide,
    c10_full_index_wraps (by decide) hm (by decide) 5 (by decide)⟩
